import Mathlib

/-
  Shallow embedding of the bignum package (src/bignum/int.go).

  A big integer Int is a struct with a single field `nat : []uint16`,
  least-significant limb first.  We embed it as `List Nat`, keeping every
  limb reduced mod 2^16 exactly where the Go code truncates to uint16.
  Methods that mutate the receiver are embedded as functions returning the
  new limb list; methods that can panic return Option (none = panic, or in
  the case of fuel-bounded loops, non-termination of the Go loop).
-/

set_option maxRecDepth 100000

namespace bignum

/-- Numeric value of a limb sequence: limb k contributes limbs[k] * 2^(16k). -/
def value : List Nat → Nat
  | [] => 0
  | l :: rest => l + 65536 * value rest

/-- Loop body of storeInt (int.go lines 35-38): `for i := v; i > 0; i = i >> 16`
    appending the low 16 bits each round.  A Go int is 64 bits wide, so 64
    rounds of fuel strictly exceed what any Go execution can take. -/
def storeIntGo : Nat → Nat → List Nat
  | 0, _ => []
  | fuel + 1, v => if v = 0 then [] else v % 65536 :: storeIntGo fuel (v / 65536)

/-- storeInt (int.go lines 29-40): zero is stored as the single limb 0. -/
def storeInt (v : Nat) : List Nat :=
  if v = 0 then [0] else storeIntGo 64 v

/-- NewInt (int.go lines 23-27): the struct holds storeInt v. -/
def NewInt (v : Nat) : List Nat := storeInt v

/-- Zero (int.go lines 312-314): `bi.nat = make([]uint16, 0)` — the EMPTY slice. -/
def Zero : List Nat := []

/-- The scan of Compare (int.go lines 345-354) on the reversed limb lists:
    walk from the most significant limb down while limbs are equal, and
    compare the pair at the stopping index (the loop stops at index 0 even
    when the limbs there are equal, hence the unconditional final compare). -/
def cmpRev : List Nat → List Nat → Int
  | [a], [b] => if a < b then -1 else if b < a then 1 else 0
  | a :: as, b :: bs => if a = b then cmpRev as bs else if a < b then -1 else 1
  | _, _ => 0

/-- Compare (int.go lines 328-355): if the lengths differ or bi has no limbs,
    answer from the lengths alone (note m = n = 0 falls into this branch and
    returns 1); otherwise scan limbs from the most significant end. -/
def Compare (bi x : List Nat) : Int :=
  if bi.length ≠ x.length ∨ bi.length = 0 then
    if bi.length < x.length then -1 else 1
  else cmpRev bi.reverse x.reverse

/-- The limb loop of Add (int.go lines 139-156) plus the trailing-carry fixup:
    after consuming the limbs of x, a carry of 1 is appended as a new limb if
    the lengths were equal, otherwise it is added into the next limb of bi
    with uint16 wrap-around (`bi.nat[len(x.nat)] = uint16(bi.nat[len(x.nat)] + 1)`). -/
def addLoop : List Nat → List Nat → Nat → List Nat
  | rest, [], carry =>
    if carry = 1 then
      match rest with
      | [] => [1]
      | h :: t => (h + 1) % 65536 :: t
    else rest
  | [], _ :: _, _ => []
  | a :: as, b :: bs, carry =>
    (a + b + carry) % 65536 :: addLoop as bs ((a + b + carry) / 65536)

/-- Add after the length-swap dispatch (int.go lines 128-138): the receiver is
    at least as long as the argument; empty argument returns the receiver. -/
def addNoswap (bi x : List Nat) : List Nat :=
  if x.length = 0 then bi
  else if bi.length = 0 then x
  else addLoop bi x 0

/-- Add (int.go lines 127-157): a shorter receiver delegates `x.Add(bi)` and
    takes over its result.  This is the new value of the receiver bi. -/
def Add (bi x : List Nat) : List Nat :=
  if bi.length < x.length then addNoswap x bi else addNoswap bi x

/-- Add with both final states: `(new bi, new x)`.  In the swap branch the
    code runs `x.Add(bi); *bi = *x`, so the ARGUMENT x ends up holding the
    sum as well; in every other branch x is never written. -/
def addPair (bi x : List Nat) : List Nat × List Nat :=
  if bi.length < x.length then (addNoswap x bi, addNoswap x bi)
  else (addNoswap bi x, x)

/-- Increment (int.go lines 317-319): `bi.Add(NewInt(1))`. -/
def Increment (bi : List Nat) : List Nat := Add bi (NewInt 1)

/-- The limb loop of Sub (int.go lines 168-191).  A negative limb difference
    stores `0xFFFF - uint16(-limbdiff32) + 1`, i.e. 65536 + a - (b + borrow),
    and borrows 1.  After the limbs of x are consumed, a leftover borrow with
    equal lengths panics (none); otherwise the next limb of bi is decremented
    with uint16 wrap (`bi.nat[i]--`).  A receiver shorter than the argument
    would index out of range in Go (none); it is unreachable from Sub. -/
def subLoop : List Nat → List Nat → Nat → Option (List Nat)
  | rest, [], carry =>
    if carry = 1 then
      match rest with
      | [] => none
      | h :: t => some ((h + 65535) % 65536 :: t)
    else some rest
  | [], _ :: _, _ => none
  | a :: as, b :: bs, carry =>
    if a < b + carry then
      Option.map (fun t => (65536 + a - (b + carry)) :: t) (subLoop as bs 1)
    else
      Option.map (fun t => (a - (b + carry)) :: t) (subLoop as bs 0)

/-- Sub (int.go lines 160-192): Compare = -1 panics (none); Compare = 0 calls
    bi.Zero(), which leaves the EMPTY limb slice; otherwise run the limb loop. -/
def Sub (bi x : List Nat) : Option (List Nat) :=
  if Compare bi x = -1 then none
  else if Compare bi x = 0 then some []
  else subLoop bi x 0

/-- Decrement (int.go lines 322-324): `bi.Sub(NewInt(1))`. -/
def Decrement (bi : List Nat) : Option (List Nat) := Sub bi (NewInt 1)

/-- shift16 (int.go lines 305-309): prepend `count` zero limbs. -/
def shift16 (bi : List Nat) (count : Nat) : List Nat :=
  List.replicate count 0 ++ bi

/-- Inner convolution loop of Mul (int.go lines 216-223): for each limb of x,
    `inter.Add(NewInt(bi.nat[i]*x.nat[j]).shift16(j))`. -/
def mulInnerLoop (ai : Nat) : List Nat → Nat → List Nat → List Nat
  | [], _, inter => inter
  | xj :: rest, j, inter =>
    mulInnerLoop ai rest (j + 1) (Add inter (shift16 (NewInt (ai * xj)) j))

/-- Outer convolution loop of Mul (int.go lines 214-228):
    `product.Add(inter.shift16(i))` for each limb of bi. -/
def mulOuterLoop (x : List Nat) : List Nat → Nat → List Nat → List Nat
  | [], _, product => product
  | ai :: rest, i, product =>
    mulOuterLoop x rest (i + 1) (Add product (shift16 (mulInnerLoop ai x 0 []) i))

/-- The zero branch of Mul (int.go line 209): `bi.nat[0] = 0` writes only the
    first limb, keeping every other limb; on an empty slice it is an index out
    of range (none). -/
def setHeadZero : List Nat → Option (List Nat)
  | [] => none
  | _ :: t => some (0 :: t)

/-- Mul after the length-swap dispatch (int.go lines 200-231): when either
    operand has no limbs, only bi.nat[0] is zeroed; otherwise run the
    convolution starting from a fresh product with no limbs. -/
def mulNoswap (bi x : List Nat) : Option (List Nat) :=
  if x.length = 0 ∨ bi.length = 0 then setHeadZero bi
  else some (mulOuterLoop x bi 0 [])

/-- Mul (int.go lines 199-231): a shorter receiver copies the argument with
    Set and multiplies the copy, so the argument itself is never written. -/
def Mul (bi x : List Nat) : Option (List Nat) :=
  if bi.length < x.length then mulNoswap x bi else mulNoswap bi x

/-- The repeated-subtraction loop of Div (int.go lines 257-261):
    `for q.Zero(); bi.Compare(x) > 0; q.Increment() { bi.Sub(x) }`.
    Returns (final bi, final q).  Fuel bounds the iterations; none models the
    Go loop running past the fuel (or a panic inside Sub). -/
def divLoop : Nat → List Nat → List Nat → List Nat → Option (List Nat × List Nat)
  | 0, _, _, _ => none
  | fuel + 1, bi, x, q =>
    if Compare bi x > 0 then
      match Sub bi x with
      | none => none
      | some bi2 => divLoop fuel bi2 x (Increment q)
    else some (bi, q)

/-- Div (int.go lines 235-265), returning (quotient = final bi, remainder = n).
    A divisor comparing equal to NewInt(0) panics; equal operands yield
    (NewInt 1, empty zero); a larger divisor yields (empty zero, bi). -/
def Div (fuel : Nat) (bi x : List Nat) : Option (List Nat × List Nat) :=
  if Compare x (NewInt 0) = 0 then none
  else if Compare bi x = 0 then some (NewInt 1, [])
  else if Compare bi x = -1 then some ([], bi)
  else
    match divLoop fuel bi x [] with
    | none => none
    | some (r, q) => some (q, r)

/-- ChildishDiv (int.go lines 272-302): a line-for-line duplicate of Div. -/
def ChildishDiv (fuel : Nat) (bi x : List Nat) : Option (List Nat × List Nat) :=
  if Compare x (NewInt 0) = 0 then none
  else if Compare bi x = 0 then some (NewInt 1, [])
  else if Compare bi x = -1 then some ([], bi)
  else
    match divLoop fuel bi x [] with
    | none => none
    | some (r, q) => some (q, r)

/-- The counting loop of ModularExponentiation (int.go lines 373-379):
    `for e := NewInt(0); e.Compare(x) < 0; e.Increment()` with body
    `c.Mul(bi); c.Set(c.ChildishDiv(modulus))` — c becomes the remainder. -/
def modExpLoop : Nat → Nat → List Nat → List Nat → List Nat → List Nat → List Nat → Option (List Nat)
  | 0, _, _, _, _, _, _ => none
  | fuel + 1, df, e, x, c, base, modulus =>
    if Compare e x < 0 then
      match Mul c base with
      | none => none
      | some c2 =>
        match ChildishDiv df c2 modulus with
        | none => none
        | some (_, r) => modExpLoop fuel df (Increment e) x r base modulus
    else some c

/-- ModularExponentiation (int.go lines 359-381): a modulus comparing equal to
    NewInt(1) zeroes the receiver (empty slice); otherwise run the counting
    loop from c = 1 and store the final c into the receiver. -/
def ModularExponentiation (fuel df : Nat) (bi x modulus : List Nat) : Option (List Nat) :=
  if Compare modulus (NewInt 1) = 0 then some []
  else modExpLoop fuel df (NewInt 0) x (NewInt 1) bi modulus

/-- The witness loop of IsFermatPrime (int.go lines 391-397): for each step,
    `a := NewInt(step); a.ModularExponentiation(pmin, p)`; a result comparing
    unequal to NewInt(1) returns false at once. -/
def fermatLoop (fuel df : Nat) (pmin p : List Nat) : List Nat → Option Bool
  | [] => some true
  | step :: rest =>
    match ModularExponentiation fuel df (NewInt step) pmin p with
    | none => none
    | some a =>
      if Compare a (NewInt 1) ≠ 0 then some false
      else fermatLoop fuel df pmin p rest

/-- IsFermatPrime (int.go lines 385-399): p and pmin copy the receiver,
    pmin.Decrement() may panic, then the witnesses 2, 3, 5, 7 are tried. -/
def IsFermatPrime (fuel df : Nat) (bi : List Nat) : Option Bool :=
  match Decrement bi with
  | none => none
  | some pmin => fermatLoop fuel df pmin bi [2, 3, 5, 7]

/-- Per-limb big-endian byte emission of Bytes (int.go lines 101-110): each
    limb prepends its low byte then its high byte to the buffer built so far. -/
def bytesBuf : List Nat → List Nat
  | [] => []
  | l :: rest => bytesBuf rest ++ [l / 256 % 256, l % 256]

/-- The stripping loop of Bytes (int.go lines 112-113): drop leading zero
    bytes but never move past the last byte. -/
def stripLeading : List Nat → List Nat
  | [] => []
  | [b] => [b]
  | b :: rest => if b = 0 then stripLeading rest else b :: rest

/-- Bytes (int.go lines 95-115): a value with no limbs returns the EMPTY byte
    slice; otherwise emit two bytes per limb and strip leading zeroes. -/
def Bytes (bi : List Nat) : List Nat :=
  if bi.length = 0 then [] else stripLeading (bytesBuf bi)

/-- Sub with both final states: the argument x is only ever read (Compare and
    the loop reads of x.nat), never written. -/
def subPair (bi x : List Nat) : Option (List Nat) × List Nat := (Sub bi x, x)

/-- Mul with both final states: the swap branch copies x via Set before
    multiplying, so x is never written. -/
def mulPair (bi x : List Nat) : Option (List Nat) × List Nat := (Mul bi x, x)

/-- Div with both final states: the divisor x is only compared against and
    subtracted from the working copy, never written. -/
def divPair (fuel : Nat) (bi x : List Nat) : Option (List Nat × List Nat) × List Nat :=
  (Div fuel bi x, x)

/-- Invariant I1 of the spec: the limb sequence is never empty. -/
def I1 (l : List Nat) : Prop := l ≠ []

/-- Invariant I2 of the spec: no limb beyond the last non-zero one is
    retained, except the single zero-limb case. -/
def I2 (l : List Nat) : Prop := l = [0] ∨ l.getLast? ≠ some 0

/-- The borrow that the limb loop of Sub would carry out of the top after
    processing all limbs, starting from carry c: the same recurrence subLoop
    threads through its recursion, kept as a bare number so that the
    leftover-borrow condition of int.go lines 185-191 can be reasoned about
    separately from the limb writes. -/
def finalBorrow : List Nat → List Nat → Nat → Nat
  | _, [], c => c
  | [], _ :: _, _ => 1
  | x :: xs, y :: ys, c => finalBorrow xs ys (if x < y + c then 1 else 0)

/-- The three ways Sub can end: a normal return with the new receiver limbs,
    the underflow panic of int.go line 163, or the leftover-borrow panic of
    int.go line 187. -/
inductive SubOutcome where
  | ok (newBi : List Nat)
  | underflowPanic (biNow xNow : List Nat)
  | borrowPanic
deriving DecidableEq

/-- Sub refined to record the operand states at a panic site.  The underflow
    panic (int.go line 163) is raised inside the Compare switch, before the
    limb loop has written anything, so it reports the UNMODIFIED operands;
    the leftover-borrow panic (int.go line 187) fires after the loop has
    already rewritten limbs of the receiver. -/
def subOutcome (bi x : List Nat) : SubOutcome :=
  if Compare bi x = -1 then SubOutcome.underflowPanic bi x
  else if Compare bi x = 0 then SubOutcome.ok []
  else
    match subLoop bi x 0 with
    | some r => SubOutcome.ok r
    | none => SubOutcome.borrowPanic


theorem storeIntGo_zero (fuel : Nat) : storeIntGo fuel 0 = [] := by
  cases fuel <;> simp [storeIntGo]

theorem storeIntGo_canonical (fuel : Nat) :
    ∀ v, 0 < v → v < 2 ^ (16 * fuel) →
      storeIntGo fuel v ≠ [] ∧ (storeIntGo fuel v).getLast? ≠ some 0 := by
  induction fuel with
  | zero =>
    intro v hv hlt
    simp only [Nat.mul_zero, pow_zero] at hlt
    omega
  | succ f ih =>
    intro v hv hlt
    have hv0 : v ≠ 0 := by omega
    rw [storeIntGo, if_neg hv0]
    by_cases hd : v / 65536 = 0
    · rw [hd, storeIntGo_zero]
      have hvlt : v < 65536 := (Nat.div_eq_zero_iff (by norm_num)).mp hd
      have hmod : v % 65536 = v := Nat.mod_eq_of_lt hvlt
      refine ⟨by simp, ?_⟩
      rw [List.getLast?_singleton, hmod]
      simp [hv0]
    · have h1 : 0 < v / 65536 := Nat.pos_of_ne_zero hd
      have h2 : v / 65536 < 2 ^ (16 * f) := by
        rw [Nat.div_lt_iff_lt_mul (by norm_num : (0:Nat) < 65536)]
        calc v < 2 ^ (16 * (f + 1)) := hlt
          _ = 2 ^ (16 * f) * 65536 := by rw [Nat.mul_succ, pow_add]; norm_num
      obtain ⟨hne, hlast⟩ := ih (v / 65536) h1 h2
      obtain ⟨b, tl, htl⟩ := List.exists_cons_of_ne_nil hne
      rw [htl]
      refine ⟨by simp, ?_⟩
      rw [List.getLast?_cons_cons]
      rw [htl] at hlast
      exact hlast

/-- Claim C3 (amended): values constructed by NewInt/storeInt satisfy the spec
    invariants I1 and I2, but the zero produced by Zero() — and left behind by
    Sub on equal operands — is the EMPTY limb sequence, violating I1 (zero is
    not represented by a single zero limb there). -/
theorem C3_invariants_amended (v : Nat) (hv : v < 2 ^ 63) :
    I1 (storeInt v) ∧ I2 (storeInt v) ∧ ¬ I1 Zero ∧
      Sub (storeInt 5) (storeInt 5) = some Zero := by
  refine ⟨?_, ?_, by simp [I1, Zero], by decide⟩
  · by_cases h0 : v = 0
    · subst h0; simp [storeInt, I1]
    · have h := storeIntGo_canonical 64 v (Nat.pos_of_ne_zero h0)
        (lt_of_lt_of_le hv (Nat.pow_le_pow_right (by norm_num) (by norm_num)))
      unfold I1
      simp only [storeInt]
      rw [if_neg h0]
      exact h.1
  · by_cases h0 : v = 0
    · subst h0; simp [storeInt, I2]
    · have h := storeIntGo_canonical 64 v (Nat.pos_of_ne_zero h0)
        (lt_of_lt_of_le hv (Nat.pow_le_pow_right (by norm_num) (by norm_num)))
      unfold I2
      simp only [storeInt]
      rw [if_neg h0]
      exact Or.inr h.2

theorem C3_invariants_w :
    I1 (storeInt 6) ∧ I2 (storeInt 6) ∧ ¬ I1 Zero ∧
      Sub (storeInt 5) (storeInt 5) = some Zero :=
  C3_invariants_amended 6 (by norm_num)

/-- Claim C3 counterexample: the zero that Zero() produces, and that Sub of
    equal operands leaves behind, has an empty limb sequence, refuting
    invariant I1 for observable values. -/
theorem C3_invariants_cx :
    Zero = ([] : List Nat) ∧ Sub (storeInt 5) (storeInt 5) = some ([] : List Nat) ∧
      ¬ I1 ([] : List Nat) :=
  ⟨rfl, by decide, by simp [I1]⟩

/-- Claim C1: at a = 4294967295 (limbs [65535, 65535]) and b = 1 the leftover
    carry is folded into the next limb with uint16 wrap instead of being
    propagated, so Add returns limbs [0, 0] — value 0 — not the exact sum
    4294967296. -/
theorem C1_add_carry_lost :
    Add (storeInt 4294967295) (storeInt 1) = [0, 0] ∧
    value [0, 0] = 0 ∧
    value (storeInt 4294967295) + value (storeInt 1) = 4294967296 := by decide

/-- Claim C2: Div(6, 3) returns quotient 1 and remainder 3, because the
    repeated-subtraction loop stops as soon as the working value compares
    less-or-equal to the divisor, so an exact multiple keeps a remainder
    equal to the divisor instead of satisfying Compare(r, b) < 0. -/
theorem C2_divmod_remainder_eq_divisor :
    Div 10 (storeInt 6) (storeInt 3) = some (storeInt 1, storeInt 3) ∧
    Compare (storeInt 3) (storeInt 3) = 0 := by decide

/-- Claim C4: ModularExponentiation(4, 1, 2) returns 2 — equal to the
    modulus, not the mathematical value 4^1 mod 2 = 0 — because ChildishDiv
    leaves a remainder equal to the divisor on exact multiples; the concrete
    case the spec cites, 4^13 mod 497, does evaluate to 445. -/
theorem C4_modpow_exact_multiple_bug :
    ModularExponentiation 5 10 (storeInt 4) (storeInt 1) (storeInt 2) =
      some (storeInt 2) ∧
    Compare (storeInt 2) (storeInt 2) = 0 ∧
    4 ^ 1 % 2 = 0 ∧
    ModularExponentiation 20 20 (storeInt 4) (storeInt 13) (storeInt 497) =
      some (storeInt 445) := by decide

/-- Claim C5: multiplying 65537 (limbs [1, 1]) by the zero-limbed zero writes
    only the first limb, returning limbs [0, 1] — the value 65536, not zero —
    contradicting the in-code comment that multiplication by zero just sets
    bi to zero. -/
theorem C5_mul_by_empty_zero_bug :
    Mul (storeInt 65537) Zero = some [0, 1] ∧ value [0, 1] = 65536 := by decide

theorem fermatLoop_eq_false (fuel df : Nat) (pmin p : List Nat) :
    ∀ ws : List Nat, fermatLoop fuel df pmin p ws = some false →
      ∃ step, step ∈ ws ∧ ∃ a,
        ModularExponentiation fuel df (NewInt step) pmin p = some a ∧
        Compare a (NewInt 1) ≠ 0 := by
  intro ws
  induction ws with
  | nil => intro h; simp [fermatLoop] at h
  | cons s rest ih =>
    intro h
    cases hM : ModularExponentiation fuel df (NewInt s) pmin p with
    | none => simp [fermatLoop, hM] at h
    | some a =>
      by_cases hc : Compare a (NewInt 1) = 0
      · simp only [fermatLoop, hM, hc, ne_eq, not_true_eq_false, if_false] at h
        obtain ⟨step, hmem, hrest⟩ := ih h
        exact ⟨step, List.mem_cons_of_mem s hmem, hrest⟩
      · exact ⟨s, List.mem_cons_self s rest, a, hM, hc⟩

theorem fermatLoop_eq_true (fuel df : Nat) (pmin p : List Nat) :
    ∀ ws : List Nat,
      (∀ step ∈ ws, ∃ a,
        ModularExponentiation fuel df (NewInt step) pmin p = some a ∧
        Compare a (NewInt 1) = 0) →
      fermatLoop fuel df pmin p ws = some true := by
  intro ws
  induction ws with
  | nil => intro _; simp [fermatLoop]
  | cons s rest ih =>
    intro h
    obtain ⟨a, hM, hc⟩ := h s (List.mem_cons_self s rest)
    have hrest := fun step hs => h step (List.mem_cons_of_mem s hs)
    simp only [fermatLoop, hM, hc, ne_eq, not_true_eq_false, if_false]
    exact ih hrest

theorem fermatLoop_false_of_bad (fuel df : Nat) (pmin p : List Nat) :
    ∀ ws : List Nat,
      (∀ step ∈ ws, ∃ a,
        ModularExponentiation fuel df (NewInt step) pmin p = some a) →
      (∃ step, step ∈ ws ∧ ∃ a,
        ModularExponentiation fuel df (NewInt step) pmin p = some a ∧
        Compare a (NewInt 1) ≠ 0) →
      fermatLoop fuel df pmin p ws = some false := by
  intro ws
  induction ws with
  | nil =>
    intro _ hbad
    obtain ⟨step, hmem, _⟩ := hbad
    exact absurd hmem (List.not_mem_nil step)
  | cons s rest ih =>
    intro htot hbad
    obtain ⟨a, hM⟩ := htot s (List.mem_cons_self s rest)
    by_cases hc : Compare a (NewInt 1) = 0
    · simp only [fermatLoop, hM, hc, ne_eq, not_true_eq_false, if_false]
      apply ih (fun step hs => htot step (List.mem_cons_of_mem s hs))
      obtain ⟨step, hmem, a2, hM2, hc2⟩ := hbad
      rcases List.mem_cons.mp hmem with rfl | hmem2
      · rw [hM] at hM2
        injection hM2 with ha
        exact absurd (ha ▸ hc) hc2
      · exact ⟨step, hmem2, a2, hM2, hc2⟩
    · simp [fermatLoop, hM, hc]

/-- Claim C6: whenever Decrement succeeds on n (as it does for every
    canonical n ≥ 2), IsFermatPrime returns false exactly when some witness
    in {2, 3, 5, 7} produces a ModularExponentiation result comparing
    unequal to 1 — in particular, if every witness run terminates and some
    witness compares unequal to 1 then the answer IS false — and true when
    all four compare equal to 1; concretely, 17 is declared probably prime
    and 15 is not. -/
theorem C6_fermat_witness_set (fuel df : Nat) (n pmin : List Nat)
    (hd : Decrement n = some pmin) :
    (IsFermatPrime fuel df n = some false →
      ∃ step, step ∈ [2, 3, 5, 7] ∧ ∃ a,
        ModularExponentiation fuel df (NewInt step) pmin n = some a ∧
        Compare a (NewInt 1) ≠ 0) ∧
    ((∀ step ∈ [2, 3, 5, 7], ∃ a,
        ModularExponentiation fuel df (NewInt step) pmin n = some a) →
      (∃ step, step ∈ [2, 3, 5, 7] ∧ ∃ a,
        ModularExponentiation fuel df (NewInt step) pmin n = some a ∧
        Compare a (NewInt 1) ≠ 0) →
      IsFermatPrime fuel df n = some false) ∧
    ((∀ step ∈ [2, 3, 5, 7], ∃ a,
        ModularExponentiation fuel df (NewInt step) pmin n = some a ∧
        Compare a (NewInt 1) = 0) →
      IsFermatPrime fuel df n = some true) ∧
    IsFermatPrime 20 20 (storeInt 17) = some true ∧
    IsFermatPrime 20 20 (storeInt 15) = some false := by
  have hI : IsFermatPrime fuel df n = fermatLoop fuel df pmin n [2, 3, 5, 7] := by
    simp [IsFermatPrime, hd]
  refine ⟨?_, ?_, ?_, by decide, by decide⟩
  · intro h
    rw [hI] at h
    exact fermatLoop_eq_false fuel df pmin n [2, 3, 5, 7] h
  · intro htot hbad
    rw [hI]
    exact fermatLoop_false_of_bad fuel df pmin n [2, 3, 5, 7] htot hbad
  · intro h
    rw [hI]
    exact fermatLoop_eq_true fuel df pmin n [2, 3, 5, 7] h

theorem C6_fermat_witness_set_w :
    IsFermatPrime 20 20 (storeInt 17) = some true ∧
    IsFermatPrime 20 20 (storeInt 15) = some false :=
  (C6_fermat_witness_set 20 20 (storeInt 17) (storeInt 16) (by decide)).2.2.2

theorem finalBorrow_le_one : ∀ (a b : List Nat) (c : Nat), c ≤ 1 → finalBorrow a b c ≤ 1 := by
  intro a
  induction a with
  | nil =>
    intro b c hc
    cases b with
    | nil => simpa [finalBorrow] using hc
    | cons y ys => simp [finalBorrow]
  | cons x xs ih =>
    intro b c hc
    cases b with
    | nil => simpa [finalBorrow] using hc
    | cons y ys =>
      by_cases hx : x < y + c
      · simp only [finalBorrow, if_pos hx]
        exact ih ys 1 (by omega)
      · simp only [finalBorrow, if_neg hx]
        exact ih ys 0 (by omega)

theorem finalBorrow_append : ∀ (as bs : List Nat) (x y c : Nat),
    as.length = bs.length →
    finalBorrow (as ++ [x]) (bs ++ [y]) c =
      if x < y + finalBorrow as bs c then 1 else 0 := by
  intro as
  induction as with
  | nil =>
    intro bs x y c h
    cases bs with
    | nil => simp [finalBorrow]
    | cons => simp at h
  | cons a as2 ih =>
    intro bs x y c h
    cases bs with
    | nil => simp at h
    | cons b bs2 =>
      simp only [List.cons_append, finalBorrow]
      exact ih bs2 x y _ (by simpa using h)

theorem cmpRev_values : ∀ (A B : List Nat),
    cmpRev A B = -1 ∨ cmpRev A B = 0 ∨ cmpRev A B = 1 := by
  intro A
  induction A with
  | nil => intro B; cases B <;> simp [cmpRev]
  | cons a as ih =>
    intro B
    cases B with
    | nil => cases as <;> simp [cmpRev]
    | cons b bs =>
      cases as with
      | nil =>
        cases bs with
        | nil =>
          by_cases h1 : a < b
          · simp [cmpRev, h1]
          · by_cases h2 : b < a <;> simp [cmpRev, h1, h2]
        | cons b2 bs2 =>
          by_cases h1 : a = b
          · simp [cmpRev, h1]
          · by_cases h2 : a < b <;> simp [cmpRev, h1, h2]
      | cons a2 as2 =>
        by_cases h1 : a = b
        · simpa [cmpRev, h1] using ih bs
        · by_cases h2 : a < b <;> simp [cmpRev, h1, h2]

theorem cmpRev_one_borrow : ∀ (A B : List Nat), A.length = B.length →
    cmpRev A B = 1 → finalBorrow A.reverse B.reverse 0 = 0 := by
  intro A
  induction A with
  | nil =>
    intro B h hc
    cases B with
    | nil => simp [cmpRev] at hc
    | cons => simp at h
  | cons a as ih =>
    intro B h hc
    cases B with
    | nil => simp at h
    | cons b bs =>
      cases as with
      | nil =>
        cases bs with
        | nil =>
          by_cases h1 : a < b
          · simp [cmpRev, h1] at hc
          · by_cases h2 : b < a
            · simp only [List.reverse_singleton, finalBorrow]
              simp
              omega
            · simp [cmpRev, h1, h2] at hc
        | cons => simp at h
      | cons a2 as2 =>
        cases bs with
        | nil => simp at h
        | cons b2 bs2 =>
          have hlen : (a2 :: as2).length = (b2 :: bs2).length := by simpa using h
          rw [List.reverse_cons a (a2 :: as2), List.reverse_cons b (b2 :: bs2)]
          rw [finalBorrow_append _ _ a b 0 (by simpa using hlen)]
          by_cases h1 : a = b
          · have hc2 : cmpRev (a2 :: as2) (b2 :: bs2) = 1 := by
              simpa [cmpRev, h1] using hc
            rw [ih (b2 :: bs2) hlen hc2]
            simp [h1]
          · have h2 : b < a := by
              by_cases h3 : a < b
              · simp [cmpRev, h1, h3] at hc
              · omega
            have hle : finalBorrow (a2 :: as2).reverse (b2 :: bs2).reverse 0 ≤ 1 :=
              finalBorrow_le_one _ _ 0 (by omega)
            have h4 : ¬ a < b + finalBorrow (a2 :: as2).reverse (b2 :: bs2).reverse 0 := by
              omega
            rw [if_neg h4]

theorem subLoop_none_iff : ∀ (a b : List Nat) (c : Nat), a.length = b.length →
    (subLoop a b c = none ↔ finalBorrow a b c = 1) := by
  intro a
  induction a with
  | nil =>
    intro b c h
    cases b with
    | cons => simp at h
    | nil => by_cases hc : c = 1 <;> simp [subLoop, finalBorrow, hc]
  | cons x xs ih =>
    intro b c h
    cases b with
    | nil => simp at h
    | cons y ys =>
      have hlen : xs.length = ys.length := by simpa using h
      by_cases hx : x < y + c
      · simp [subLoop, finalBorrow, hx, ih ys 1 hlen]
      · simp [subLoop, finalBorrow, hx, ih ys 0 hlen]

theorem subLoop_some_of_longer : ∀ (b a : List Nat) (c : Nat),
    b.length < a.length → subLoop a b c ≠ none := by
  intro b
  induction b with
  | nil =>
    intro a c h
    cases a with
    | nil => simp at h
    | cons x xs => by_cases hc : c = 1 <;> simp [subLoop, hc]
  | cons y ys ih =>
    intro a c h
    cases a with
    | nil => simp at h
    | cons x xs =>
      have hlen : ys.length < xs.length := by simpa using h
      by_cases hx : x < y + c
      · simp only [subLoop, if_pos hx]
        simp only [ne_eq, Option.map_eq_none']
        exact ih xs 1 hlen
      · simp only [subLoop, if_neg hx]
        simp only [ne_eq, Option.map_eq_none']
        exact ih xs 0 hlen

theorem sub_none_iff (a b : List Nat) : Sub a b = none ↔ Compare a b = -1 := by
  constructor
  · intro h
    by_contra hne
    simp only [Sub] at h
    rw [if_neg hne] at h
    by_cases h0 : Compare a b = 0
    · rw [if_pos h0] at h
      simp at h
    · rw [if_neg h0] at h
      by_cases hL : a.length ≠ b.length ∨ a.length = 0
      · have hcmp : Compare a b = if a.length < b.length then -1 else 1 := by
          rw [Compare, if_pos hL]
        by_cases hlt : a.length < b.length
        · exact hne (by rw [hcmp, if_pos hlt])
        · have hsplit : b.length < a.length ∨ (a.length = 0 ∧ b.length = 0) := by
            rcases hL with hne2 | h02
            · left; omega
            · right; omega
          rcases hsplit with hgt | ⟨ha0, hb0⟩
          · exact subLoop_some_of_longer b a 0 hgt h
          · rw [List.length_eq_zero.mp ha0, List.length_eq_zero.mp hb0] at h
            simp [subLoop] at h
      · push_neg at hL
        obtain ⟨hlen, hA0⟩ := hL
        have hcmp : Compare a b = cmpRev a.reverse b.reverse := by
          rw [Compare, if_neg]
          push_neg
          exact ⟨hlen, hA0⟩
        rcases cmpRev_values a.reverse b.reverse with hv | hv | hv
        · exact hne (by rw [hcmp, hv])
        · exact h0 (by rw [hcmp, hv])
        · have hb0 : finalBorrow a b 0 = 0 := by
            have h5 := cmpRev_one_borrow a.reverse b.reverse (by simp [hlen]) hv
            simpa using h5
          have h6 := (subLoop_none_iff a b 0 hlen).mp h
          omega
  · intro h
    simp [Sub, h]

/-- Claim C7 (amended): Sub signals underflow exactly when the length-first
    Compare verdict is -1 — the leftover-borrow panic after the limb loop is
    unreachable — and that panic is raised inside the Compare switch before
    any limb is written, so both operands still hold their original limbs on
    error; the verdict can disagree with numeric order (the empty-limbed
    zero minus NewInt(0) underflows although both values are 0), and when
    Compare yields 0 the result is the empty limb sequence, not a single
    zero limb. -/
theorem C7_sub_underflow_amended (a b : List Nat) :
    (Sub a b = none ↔ Compare a b = -1) ∧
    (Sub a b = none → subOutcome a b = SubOutcome.underflowPanic a b) ∧
    (Compare a b = 0 → Sub a b = some Zero) ∧
    Sub Zero (NewInt 0) = none ∧ value Zero = value (NewInt 0) := by
  have hiff := sub_none_iff a b
  refine ⟨hiff, ?_, ?_, by decide, by decide⟩
  · intro h
    have hc := hiff.mp h
    simp [subOutcome, hc]
  · intro h
    simp [Sub, h, Zero]

theorem C7_sub_underflow_w :
    Sub (storeInt 3) (storeInt 5) = none ∧
    subOutcome (storeInt 3) (storeInt 5) =
      SubOutcome.underflowPanic (storeInt 3) (storeInt 5) ∧
    Sub (storeInt 5) (storeInt 5) = some Zero :=
  ⟨(C7_sub_underflow_amended (storeInt 3) (storeInt 5)).1.mpr (by decide),
   (C7_sub_underflow_amended (storeInt 3) (storeInt 5)).2.1 (by decide),
   (C7_sub_underflow_amended (storeInt 5) (storeInt 5)).2.2.1 (by decide)⟩

/-- Claim C7 counterexample: Sub signals underflow on Zero() minus NewInt(0)
    although the minuend is not numerically smaller, and Sub of equal values
    yields the empty limb sequence rather than the single-limb canonical
    zero. -/
theorem C7_sub_underflow_cx :
    Sub Zero (NewInt 0) = none ∧ value Zero = value (NewInt 0) ∧
    ¬ value Zero < value (NewInt 0) ∧
    Sub (storeInt 4) (storeInt 4) = some [] ∧ ([] : List Nat) ≠ [0] := by decide

theorem stripLeading_ne_nil : ∀ l : List Nat, l ≠ [] → stripLeading l ≠ [] := by
  intro l
  induction l with
  | nil => intro h; exact absurd rfl h
  | cons b rest ih =>
    intro _
    cases rest with
    | nil => simp [stripLeading]
    | cons c tl =>
      by_cases hb : b = 0
      · have h2 := ih (by simp)
        simpa [stripLeading, hb] using h2
      · simp [stripLeading, hb]

theorem stripLeading_head : ∀ l : List Nat,
    (stripLeading l).length = 1 ∨ (stripLeading l).head? ≠ some 0 := by
  intro l
  induction l with
  | nil => right; simp [stripLeading]
  | cons b rest ih =>
    cases rest with
    | nil => left; simp [stripLeading]
    | cons c tl =>
      by_cases hb : b = 0
      · simpa [stripLeading, hb] using ih
      · right; simp [stripLeading, hb]

/-- Claim C8 (amended): for a value with at least one limb, Bytes strips
    leading zero bytes yet never returns an empty buffer (the head byte is
    nonzero or a single byte remains); but the empty-limbed zero produced by
    Zero() and by Sub of equal operands serializes to the EMPTY buffer. -/
theorem C8_bytes_strip_amended (bi : List Nat) (h : bi ≠ []) :
    Bytes bi ≠ [] ∧ ((Bytes bi).length = 1 ∨ (Bytes bi).head? ≠ some 0) ∧
      Bytes Zero = [] := by
  obtain ⟨b, t, rfl⟩ := List.exists_cons_of_ne_nil h
  have hbuf : bytesBuf (b :: t) ≠ [] := by simp [bytesBuf]
  have hB : Bytes (b :: t) = stripLeading (bytesBuf (b :: t)) := by
    simp [Bytes]
  refine ⟨?_, ?_, by decide⟩
  · rw [hB]; exact stripLeading_ne_nil (bytesBuf (b :: t)) hbuf
  · rw [hB]; exact stripLeading_head (bytesBuf (b :: t))

theorem C8_bytes_strip_w : Bytes (storeInt 0) ≠ [] :=
  (C8_bytes_strip_amended (storeInt 0) (by decide)).1

/-- Claim C8 counterexample: the all-zero value produced by Sub of equal
    operands has no limbs, and Bytes returns the empty buffer for it. -/
theorem C8_bytes_strip_cx :
    Sub (storeInt 9) (storeInt 9) = some Zero ∧ Bytes Zero = ([] : List Nat) := by
  decide

/-- Claim C9 (amended): Sub, Mul and Div never write their argument, and Add
    leaves the argument unchanged when the receiver has at least as many
    limbs; but when the receiver has fewer limbs than the argument, Add
    stores the sum into the ARGUMENT and the receiver takes it over. -/
theorem C9_arg_mutation_amended (fuel : Nat) (bi x : List Nat) :
    (subPair bi x).2 = x ∧ (mulPair bi x).2 = x ∧ (divPair fuel bi x).2 = x ∧
    (x.length ≤ bi.length → (addPair bi x).2 = x) ∧
    (bi.length < x.length → (addPair bi x).2 = Add bi x) := by
  refine ⟨rfl, rfl, rfl, ?_, ?_⟩
  · intro h; simp [addPair, Nat.not_lt.mpr h]
  · intro h; simp [addPair, Add, h]

theorem C9_arg_mutation_w :
    (addPair (storeInt 3) (storeInt 4)).2 = storeInt 4 :=
  (C9_arg_mutation_amended 1 (storeInt 3) (storeInt 4)).2.2.2.1 (by decide)

/-- Claim C9 counterexample: a.Add(b) with a = 1 (one limb) and b = 65536
    (two limbs) leaves b holding limbs [1, 1] — the sum 65537 — so the
    numeric value of the argument b changed. -/
theorem C9_arg_mutation_cx :
    (addPair (storeInt 1) (storeInt 65536)).2 = [1, 1] ∧
    value (storeInt 65536) = 65536 ∧ value [1, 1] = 65537 := by decide

/-- Claim C10: Compare on two empty limb sequences — the zero of Zero() and
    the zero Sub leaves after subtracting equal values — returns 1, so such
    a zero compares strictly greater than itself. -/
theorem C10_compare_empty_self (a : List Nat) (h : a = []) :
    Compare a a = 1 ∧ Zero = ([] : List Nat) ∧
      Sub (storeInt 7) (storeInt 7) = some Zero := by
  subst h
  exact ⟨by decide, rfl, by decide⟩

theorem C10_compare_empty_self_w : Compare Zero Zero = 1 :=
  (C10_compare_empty_self Zero rfl).1

end bignum
